import Mathlib

/-!
Shallow embedding of the rate-limiting subsystem of the SAVORIAHOTEL
chatbot backend (`src/chatbot/throttling.py`, plus the call site in
`src/chatbot/main.py`).

Modelling conventions:
* Python `float` timestamps (`time.time()`) are modelled as `ℚ`.
* Each call to the limiter is modelled as executing at a single instant
  `now : ℚ`; the several `time.time()` reads inside one Python call are
  identified with that instant.
* The in-memory fallback store (`user_requests`, a `defaultdict(list)`)
  is a total function `String → List ℚ`; a missing key is the empty list.
* The Redis backend is modelled by an explicit state (sorted-set data and
  last-set TTL per key) together with a fault-injection record saying
  which of the four backend calls (`zremrangebyscore`, `zrangebyscore`,
  `zadd`, `expire`) raises; a raising call is modelled as having no
  effect, matching a cleanly-failing network call.
* `raise HTTPException(429, ...)` is modelled as `Except.error` carrying
  the rejection payload; a normal return is `Except.ok`.
-/

/-- One entry of the `RATE_LIMITS` table: `{"limit": ..., "window": ...}`. -/
structure Policy where
  limit : Nat
  window : Nat
deriving DecidableEq

/-- The rejection payload of the `HTTPException` raised by
`check_rate_limit` (the `detail` dictionary, minus the constant
`"error"` string). -/
structure Rejection where
  limit : Nat
  window : Nat
  current_usage : Nat
  reset_time : ℚ
  retry_after : ℤ
deriving DecidableEq

/-- The dictionary returned by `check_rate_limit` on success. -/
structure Admission where
  allowed : Bool
  limit : Nat
  remaining : ℤ
  reset_time : ℚ
deriving DecidableEq

/-- The dictionary returned by `get_rate_limit_info`. -/
structure RateLimitInfo where
  limit : Nat
  remaining : ℤ
  reset_time : ℚ
  window : Nat
deriving DecidableEq

/-- The module-level `RATE_LIMITS` configuration dictionary
(`throttling.py`, lines 12–16). -/
def RATE_LIMITS : List (String × Policy) :=
  [("global_unauthenticated_user", ⟨20, 60⟩),
   ("authenticated_user", ⟨100, 60⟩),
   ("premium_user", ⟨500, 60⟩)]

/-- Python `dict.get(key, default)` on the policy table. -/
def dictGetD (d : List (String × Policy)) (k : String) (dflt : Policy) : Policy :=
  match d.lookup k with
  | some v => v
  | none => dflt

/-- `RateLimiter._get_rate_limit_config`:
`RATE_LIMITS.get(user_type, RATE_LIMITS["global_unauthenticated_user"])`.
The inner indexing cannot fail because the key is present in the table;
the junk default `⟨0, 0⟩` is never reached. -/
def getRateLimitConfig (user_type : String) : Policy :=
  dictGetD RATE_LIMITS user_type
    (dictGetD RATE_LIMITS "global_unauthenticated_user" ⟨0, 0⟩)

/-- Python `min(list)`.  Python raises `ValueError` on an empty list; in
the limiter `min` is only ever applied to a list of length at least the
(positive) limit, so the `[]` branch is unreachable and its value `0` is
junk. -/
def listMin : List ℚ → ℚ
  | [] => 0
  | t :: ts => ts.foldl min t

/-- Python `int(q)`: truncation toward zero. -/
def pyInt (q : ℚ) : ℤ :=
  if 0 ≤ q then ⌊q⌋ else ⌈q⌉

/-- The in-memory fallback store `user_requests` (`defaultdict(list)`):
a missing key reads as `[]`. -/
def Store : Type := String → List ℚ

/-- The `f"rate_limit:{user_id}"` key derivation. -/
def windowKey (user_id : String) : String := "rate_limit:" ++ user_id

/-- `RateLimiter._get_requests_from_memory`: prune the key's list down to
the timestamps `t` with `t > current_time - window`, store the pruned
list back, and return it. -/
def getRequestsFromMemory (store : Store) (key : String) (window : ℚ) (now : ℚ) :
    Store × List ℚ :=
  let pruned := (store key).filter (fun t => decide (now - window < t))
  (fun k => if k = key then pruned else store k, pruned)

/-- `RateLimiter._add_request_to_memory`: append the timestamp to the
key's list. -/
def addRequestToMemory (store : Store) (key : String) (timestamp : ℚ) : Store :=
  fun k => if k = key then store k ++ [timestamp] else store k

/-- `RateLimiter.check_rate_limit` on the in-memory fallback path
(`self.redis_client` is `None`).  `Except.error` models the raised
429 `HTTPException`.  On this path `recent_requests` is the very list
object stored in `self.memory_store[key]` (`_get_requests_from_memory`
returns it by reference), so the append performed by
`_add_request_to_memory` mutates it before the returned dictionary reads
`len(recent_requests)`: the `remaining` field is computed from the
post-append length, one larger than the observed count. -/
def checkRateLimitMem (store : Store) (user_id : String) (user_type : String)
    (now : ℚ) : Store × Except Rejection Admission :=
  let config := getRateLimitConfig user_type
  let limit := config.limit
  let window := config.window
  let key := windowKey user_id
  let res := getRequestsFromMemory store key (window : ℚ) now
  let recent := res.2
  if limit ≤ recent.length then
    let reset_time := listMin recent + (window : ℚ)
    (res.1,
     Except.error ⟨limit, window, recent.length, reset_time,
                   pyInt (reset_time - now)⟩)
  else
    let store2 := addRequestToMemory res.1 key now
    (store2,
     Except.ok ⟨true, limit, (limit : ℤ) - (store2 key).length - 1,
                now + (window : ℚ)⟩)

/-- `get_rate_limit_info` on the in-memory fallback path: read-only in
the sense that it only prunes, never appends. -/
def getRateLimitInfoMem (store : Store) (user_id : String) (user_type : String)
    (now : ℚ) : Store × RateLimitInfo :=
  let config := getRateLimitConfig user_type
  let key := windowKey user_id
  let res := getRequestsFromMemory store key (config.window : ℚ) now
  (res.1,
   ⟨config.limit, (config.limit : ℤ) - res.2.length, now + (config.window : ℚ),
    config.window⟩)

/-- State of the Redis backend: per key, the sorted-set contents (the
scores; the member of each element is `str(timestamp)`, so members are in
bijection with scores and duplicates collapse) and the last TTL set by
`expire`, in seconds. -/
structure RedisState where
  data : String → List ℚ
  ttl : String → Option ℚ

/-- Fault injection for the four Redis calls made by the limiter: a
`true` field means that call raises (cleanly, with no effect). -/
structure Faults where
  zremFails : Bool
  zrangeFails : Bool
  zaddFails : Bool
  expireFails : Bool

/-- Redis `ZREMRANGEBYSCORE key lo hi`: remove the elements whose score
lies in the closed interval `[lo, hi]`. -/
def zremrangebyscore (rs : RedisState) (key : String) (lo hi : ℚ) : RedisState :=
  { rs with
    data := fun k =>
      if k = key then
        (rs.data k).filter (fun t => !(decide (lo ≤ t) && decide (t ≤ hi)))
      else rs.data k }

/-- Redis `ZRANGEBYSCORE key lo hi`: the elements whose score lies in the
closed interval `[lo, hi]`. -/
def zrangebyscore (rs : RedisState) (key : String) (lo hi : ℚ) : List ℚ :=
  (rs.data key).filter (fun t => decide (lo ≤ t) && decide (t ≤ hi))

/-- Redis `ZADD key {str(ts): ts}`: insert the member if absent (adding
an already-present member of a sorted set is a no-op on the contents). -/
def zadd (rs : RedisState) (key : String) (ts : ℚ) : RedisState :=
  { rs with
    data := fun k =>
      if k = key then
        (if ts ∈ rs.data k then rs.data k else rs.data k ++ [ts])
      else rs.data k }

/-- Redis `EXPIRE key seconds`: record the freshly-set TTL. -/
def expire (rs : RedisState) (key : String) (seconds : ℚ) : RedisState :=
  { rs with ttl := fun k => if k = key then some seconds else rs.ttl k }

/-- `RateLimiter._get_requests_from_redis`: `try` the prune and the range
read; any raise is caught and the function returns `[]`.  A fault in the
first call leaves the state untouched; a fault in the second call leaves
the prune's effect in place. -/
def getRequestsFromRedis (f : Faults) (rs : RedisState) (key : String)
    (window : ℚ) (now : ℚ) : RedisState × List ℚ :=
  if f.zremFails then (rs, [])
  else
    let rs1 := zremrangebyscore rs key 0 (now - window)
    if f.zrangeFails then (rs1, [])
    else (rs1, zrangebyscore rs1 key (now - window) now)

/-- `RateLimiter._add_request_to_redis`: `try` the insert then the TTL
reset; any raise is caught and ignored.  If `zadd` raises nothing
happens; if `expire` raises the insert's effect remains. -/
def addRequestToRedis (f : Faults) (rs : RedisState) (key : String)
    (timestamp : ℚ) (window : ℚ) : RedisState :=
  if f.zaddFails then rs
  else
    let rs1 := zadd rs key timestamp
    if f.expireFails then rs1
    else expire rs1 key window

/-- `RateLimiter.check_rate_limit` on the Redis path
(`self.redis_client` is set). -/
def checkRateLimitRedis (f : Faults) (rs : RedisState) (user_id : String)
    (user_type : String) (now : ℚ) : RedisState × Except Rejection Admission :=
  let config := getRateLimitConfig user_type
  let limit := config.limit
  let window := config.window
  let key := windowKey user_id
  let res := getRequestsFromRedis f rs key (window : ℚ) now
  let recent := res.2
  if limit ≤ recent.length then
    let reset_time := listMin recent + (window : ℚ)
    (res.1,
     Except.error ⟨limit, window, recent.length, reset_time,
                   pyInt (reset_time - now)⟩)
  else
    (addRequestToRedis f res.1 key now (window : ℚ),
     Except.ok ⟨true, limit, (limit : ℤ) - recent.length - 1, now + (window : ℚ)⟩)

/-- `get_rate_limit_info` on the Redis path. -/
def getRateLimitInfoRedis (f : Faults) (rs : RedisState) (user_id : String)
    (user_type : String) (now : ℚ) : RedisState × RateLimitInfo :=
  let config := getRateLimitConfig user_type
  let key := windowKey user_id
  let res := getRequestsFromRedis f rs key (config.window : ℚ) now
  (res.1,
   ⟨config.limit, (config.limit : ℤ) - res.2.length, now + (config.window : ℚ),
    config.window⟩)

/-- `apply_rate_limit(user_id, user_type="global_unauthenticated_user")`
on the in-memory fallback path (the `now` parameter is moved ahead of the
defaulted `user_type`). -/
def applyRateLimit (store : Store) (now : ℚ) (user_id : String)
    (user_type : String := "global_unauthenticated_user") :
    Store × Except Rejection Admission :=
  checkRateLimitMem store user_id user_type now

/-- The request body of `/ask_rag` (`RAGRequest` in `main.py`). -/
structure RAGRequest where
  question : String
  session_id : Option String

/-- The rate-limiting step of the `/ask_rag` endpoint (`main.py`,
line 214): `apply_rate_limit("global_unauthenticated_user")`, with the
tier left at its default.  The request body plays no role in the
admission decision. -/
def askRagAdmission (_req : RAGRequest) (store : Store) (now : ℚ) :
    Store × Except Rejection Admission :=
  applyRateLimit store now "global_unauthenticated_user"

/-- Sequential execution of `check_rate_limit` for one user at the given
list of instants, threading the in-memory store. -/
def checkSeq (store : Store) (user_id : String) (user_type : String) :
    List ℚ → Store × List (Except Rejection Admission)
  | [] => (store, [])
  | t :: ts =>
    let step := checkRateLimitMem store user_id user_type t
    let rest := checkSeq step.1 user_id user_type ts
    (rest.1, step.2 :: rest.2)

/-! ### Derived abbreviations (composites of the source functions) -/

/-- The pruned in-window list that `check_rate_limit` observes for
`user_id` under tier `user_type` at instant `now` (the second component
of `_get_requests_from_memory`). -/
def recentOf (store : Store) (user_id : String) (user_type : String) (now : ℚ) :
    List ℚ :=
  (getRequestsFromMemory store (windowKey user_id)
    ((getRateLimitConfig user_type).window : ℚ) now).2

/-- The store as left by the pruning read of `check_rate_limit` (the
first component of `_get_requests_from_memory`). -/
def prunedStoreOf (store : Store) (user_id : String) (user_type : String)
    (now : ℚ) : Store :=
  (getRequestsFromMemory store (windowKey user_id)
    ((getRateLimitConfig user_type).window : ℚ) now).1

/-! ### Policy table lemmas -/

theorem getRateLimitConfig_default :
    getRateLimitConfig "global_unauthenticated_user" = ⟨20, 60⟩ := rfl

theorem getRateLimitConfig_unknown (t : String)
    (h1 : t ≠ "global_unauthenticated_user") (h2 : t ≠ "authenticated_user")
    (h3 : t ≠ "premium_user") : getRateLimitConfig t = ⟨20, 60⟩ := by
  have e1 : (t == "global_unauthenticated_user") = false := by simpa using h1
  have e2 : (t == "authenticated_user") = false := by simpa using h2
  have e3 : (t == "premium_user") = false := by simpa using h3
  simp [getRateLimitConfig, dictGetD, RATE_LIMITS, List.lookup, e1, e2, e3]

theorem getRateLimitConfig_cases (t : String) :
    getRateLimitConfig t = ⟨20, 60⟩ ∨ getRateLimitConfig t = ⟨100, 60⟩ ∨
      getRateLimitConfig t = ⟨500, 60⟩ := by
  by_cases h1 : t = "global_unauthenticated_user"
  · subst h1; left; rfl
  by_cases h2 : t = "authenticated_user"
  · subst h2; right; left; rfl
  by_cases h3 : t = "premium_user"
  · subst h3; right; right; rfl
  · left; exact getRateLimitConfig_unknown t h1 h2 h3

theorem getRateLimitConfig_limit_pos (t : String) :
    0 < (getRateLimitConfig t).limit := by
  rcases getRateLimitConfig_cases t with h | h | h <;> rw [h] <;> decide

theorem getRateLimitConfig_window_pos (t : String) :
    0 < (getRateLimitConfig t).window := by
  rcases getRateLimitConfig_cases t with h | h | h <;> rw [h] <;> decide

/-! ### Unfolding lemmas for the memory-path limiter -/

theorem prunedStoreOf_key (store : Store) (uid ut : String) (now : ℚ) :
    prunedStoreOf store uid ut now (windowKey uid) = recentOf store uid ut now := by
  simp [prunedStoreOf, recentOf, getRequestsFromMemory]

theorem prunedStoreOf_other (store : Store) (uid ut : String) (now : ℚ)
    (k : String) (hk : k ≠ windowKey uid) :
    prunedStoreOf store uid ut now k = store k := by
  simp [prunedStoreOf, getRequestsFromMemory, hk]

theorem recentOf_eq_filter (store : Store) (uid ut : String) (now : ℚ) :
    recentOf store uid ut now =
      (store (windowKey uid)).filter
        (fun t => decide (now - ((getRateLimitConfig ut).window : ℚ) < t)) := rfl

theorem checkRateLimitMem_reject (store : Store) (uid ut : String) (now : ℚ)
    (h : (getRateLimitConfig ut).limit ≤ (recentOf store uid ut now).length) :
    checkRateLimitMem store uid ut now =
      (prunedStoreOf store uid ut now,
       Except.error
         ⟨(getRateLimitConfig ut).limit, (getRateLimitConfig ut).window,
          (recentOf store uid ut now).length,
          listMin (recentOf store uid ut now) + ((getRateLimitConfig ut).window : ℚ),
          pyInt (listMin (recentOf store uid ut now) +
            ((getRateLimitConfig ut).window : ℚ) - now)⟩) := by
  simp only [checkRateLimitMem, recentOf, prunedStoreOf] at *
  rw [if_pos h]

theorem checkRateLimitMem_allow (store : Store) (uid ut : String) (now : ℚ)
    (h : (recentOf store uid ut now).length < (getRateLimitConfig ut).limit) :
    checkRateLimitMem store uid ut now =
      (addRequestToMemory (prunedStoreOf store uid ut now) (windowKey uid) now,
       Except.ok
         ⟨true, (getRateLimitConfig ut).limit,
          ((getRateLimitConfig ut).limit : ℤ) - (recentOf store uid ut now).length - 2,
          now + ((getRateLimitConfig ut).window : ℚ)⟩) := by
  simp only [checkRateLimitMem, recentOf, prunedStoreOf] at *
  rw [if_neg (by omega)]
  have hlen : ((addRequestToMemory
      (getRequestsFromMemory store (windowKey uid)
        ((getRateLimitConfig ut).window : ℚ) now).1 (windowKey uid) now)
        (windowKey uid)).length =
      ((getRequestsFromMemory store (windowKey uid)
        ((getRateLimitConfig ut).window : ℚ) now).2).length + 1 := by
    simp [addRequestToMemory, getRequestsFromMemory]
  rw [hlen]
  have hval : ((getRateLimitConfig ut).limit : ℤ) -
      (((getRequestsFromMemory store (windowKey uid)
        ((getRateLimitConfig ut).window : ℚ) now).2).length + 1 : ℕ) - 1 =
      ((getRateLimitConfig ut).limit : ℤ) -
        ((getRequestsFromMemory store (windowKey uid)
          ((getRateLimitConfig ut).window : ℚ) now).2).length - 2 := by
    push_cast
    ring
  rw [hval]

/-! ### Facts about `listMin` -/

theorem foldl_min_mem (ts : List ℚ) (a : ℚ) :
    ts.foldl min a = a ∨ ts.foldl min a ∈ ts := by
  induction ts generalizing a with
  | nil => left; rfl
  | cons t ts ih =>
    rcases ih (min a t) with h | h
    · rcases min_choice a t with hm | hm
      · left; rw [List.foldl_cons, h, hm]
      · right; rw [List.foldl_cons, h, hm]; exact List.mem_cons_self t ts
    · right; exact List.mem_cons_of_mem t h

theorem listMin_mem (l : List ℚ) (h : l ≠ []) : listMin l ∈ l := by
  cases l with
  | nil => exact absurd rfl h
  | cons t ts =>
    rcases foldl_min_mem ts t with h' | h'
    · rw [listMin, h']; exact List.mem_cons_self t ts
    · rw [listMin]; exact List.mem_cons_of_mem t h'

/-! ### An uninterrupted run of admissions -/

/-- The result list produced by a run of admitted calls when `used`
requests are already on record: the head call returns `remaining =
limit - used - 2` (the fallback path reads the aliased list's length
after the append) and `reset_time = t + window`. -/
def okRun (limit window used : Nat) : List ℚ → List (Except Rejection Admission)
  | [] => []
  | t :: ts =>
    Except.ok ⟨true, limit, (limit : ℤ) - used - 2, t + (window : ℚ)⟩ ::
      okRun limit window (used + 1) ts

theorem okRun_length (limit window used : Nat) (ts : List ℚ) :
    (okRun limit window used ts).length = ts.length := by
  induction ts generalizing used with
  | nil => rfl
  | cons t ts ih => simp [okRun, ih]

theorem okRun_getElem (limit window used : Nat) (ts : List ℚ) (i : Nat)
    (h : i < ts.length) :
    ∃ a : Admission, (okRun limit window used ts)[i]? = some (Except.ok a) ∧
      a.allowed = true ∧ a.limit = limit ∧
      a.remaining = (limit : ℤ) - used - i - 2 := by
  induction ts generalizing used i with
  | nil => simp at h
  | cons t ts ih =>
    cases i with
    | zero =>
      refine ⟨⟨true, limit, (limit : ℤ) - used - 2, t + (window : ℚ)⟩, ?_, rfl, rfl, ?_⟩
      · simp [okRun]
      · push_cast; ring
    | succ i =>
      obtain ⟨a, ha, hall, hlim, hrem⟩ := ih (used + 1) i (by simpa using h)
      refine ⟨a, ?_, hall, hlim, ?_⟩
      · simpa [okRun] using ha
      · rw [hrem]; push_cast; ring

theorem checkSeq_append (st : Store) (uid ut : String) (l1 l2 : List ℚ) :
    checkSeq st uid ut (l1 ++ l2) =
      ((checkSeq (checkSeq st uid ut l1).1 uid ut l2).1,
       (checkSeq st uid ut l1).2 ++ (checkSeq (checkSeq st uid ut l1).1 uid ut l2).2) := by
  induction l1 generalizing st with
  | nil => simp [checkSeq]
  | cons t l1 ih => simp [checkSeq, ih]

/-- Invariant of an admission run: with `acc` on record (all of it inside
the window of every upcoming call), and enough headroom, every call in
`ts` is admitted, the records accumulate in order, and other keys are
untouched. -/
theorem checkSeq_admitRun (uid ut : String) (ts : List ℚ) (st : Store)
    (acc : List ℚ)
    (hst : st (windowKey uid) = acc)
    (hacc : ∀ t ∈ ts, ∀ a ∈ acc, t - ((getRateLimitConfig ut).window : ℚ) < a)
    (hts : ∀ t ∈ ts, ∀ s ∈ ts, t - ((getRateLimitConfig ut).window : ℚ) < s)
    (hlen : acc.length + ts.length ≤ (getRateLimitConfig ut).limit) :
    (checkSeq st uid ut ts).1 (windowKey uid) = acc ++ ts ∧
    (checkSeq st uid ut ts).2 =
      okRun (getRateLimitConfig ut).limit (getRateLimitConfig ut).window
        acc.length ts ∧
    ∀ k, k ≠ windowKey uid → (checkSeq st uid ut ts).1 k = st k := by
  induction ts generalizing st acc with
  | nil => exact ⟨by simpa [checkSeq] using hst, by simp [checkSeq, okRun],
      fun k _ => by simp [checkSeq]⟩
  | cons t ts ih =>
    have hfil : recentOf st uid ut t = acc := by
      rw [recentOf_eq_filter, hst]
      refine List.filter_eq_self.mpr (fun a ha => ?_)
      simpa using hacc t (List.mem_cons_self t ts) a ha
    have hlt : (recentOf st uid ut t).length < (getRateLimitConfig ut).limit := by
      rw [hfil]; simp at hlen; omega
    have hstep := checkRateLimitMem_allow st uid ut t hlt
    set st1 : Store :=
      addRequestToMemory (prunedStoreOf st uid ut t) (windowKey uid) t with hst1
    have hst1key : st1 (windowKey uid) = acc ++ [t] := by
      rw [hst1]
      simp [addRequestToMemory, prunedStoreOf_key, hfil]
    have hst1other : ∀ k, k ≠ windowKey uid → st1 k = st k := by
      intro k hk
      rw [hst1]
      simp [addRequestToMemory, hk, prunedStoreOf_other st uid ut t k hk]
    have ihres := ih st1 (acc ++ [t]) hst1key
      (by
        intro t' ht' a ha
        rcases List.mem_append.mp ha with h | h
        · exact hacc t' (List.mem_cons_of_mem t ht') a h
        · rw [List.mem_singleton.mp h]
          exact hts t' (List.mem_cons_of_mem t ht') t (List.mem_cons_self t ts))
      (fun t' ht' s hs =>
        hts t' (List.mem_cons_of_mem t ht') s (List.mem_cons_of_mem t hs))
      (by simp at hlen ⊢; omega)
    refine ⟨?_, ?_, ?_⟩
    · have := ihres.1
      simp only [checkSeq, hstep] at this ⊢
      rw [this]; simp
    · have := ihres.2.1
      simp only [checkSeq, hstep] at this ⊢
      rw [this, okRun]
      simp [hfil]
    · intro k hk
      have := ihres.2.2 k hk
      simp only [checkSeq, hstep] at this ⊢
      rw [this, hst1other k hk]

theorem checkSeq_singleton (st : Store) (uid ut : String) (t : ℚ) :
    checkSeq st uid ut [t] =
      ((checkRateLimitMem st uid ut t).1, [(checkRateLimitMem st uid ut t).2]) := by
  simp [checkSeq]

/-- C1 (amended): starting from a fresh key, `limit + 1` sequential
calls all falling inside one window admit the first `limit` of them,
but with `remaining` decreasing from `limit - 2` down to `-1` (one
less than claimed, because the fallback path reads the aliased list's
length after the append), and reject the `(limit+1)`-th with
`current_usage = limit`. -/
theorem c1_full_window_run (uid ut : String) (st : Store) (ts : List ℚ)
    (tlast : ℚ)
    (hempty : st (windowKey uid) = [])
    (hlen : ts.length = (getRateLimitConfig ut).limit)
    (hwin : ∀ t ∈ ts ++ [tlast], ∀ s ∈ ts ++ [tlast],
      t - ((getRateLimitConfig ut).window : ℚ) < s) :
    (∀ i, i < (getRateLimitConfig ut).limit →
      ∃ a : Admission,
        ((checkSeq st uid ut (ts ++ [tlast])).2)[i]? = some (Except.ok a) ∧
        a.allowed = true ∧
        a.remaining = ((getRateLimitConfig ut).limit : ℤ) - 2 - i) ∧
    ∃ r : Rejection,
      ((checkSeq st uid ut (ts ++ [tlast])).2)[(getRateLimitConfig ut).limit]? =
        some (Except.error r) ∧
      r.current_usage = (getRateLimitConfig ut).limit := by
  obtain ⟨hkey, hres, -⟩ := checkSeq_admitRun uid ut ts st [] hempty
    (by intro t _ a ha; simp at ha)
    (fun t ht s hs =>
      hwin t (List.mem_append_left _ ht) s (List.mem_append_left _ hs))
    (by simp [hlen])
  have hfil : recentOf (checkSeq st uid ut ts).1 uid ut tlast = ts := by
    rw [recentOf_eq_filter, hkey, List.nil_append]
    refine List.filter_eq_self.mpr (fun s hs => ?_)
    simpa using hwin tlast (by simp) s (List.mem_append_left _ hs)
  have hge : (getRateLimitConfig ut).limit ≤
      (recentOf (checkSeq st uid ut ts).1 uid ut tlast).length := by
    rw [hfil, hlen]
  have hstep := checkRateLimitMem_reject (checkSeq st uid ut ts).1 uid ut tlast hge
  have hsplit :
      (checkSeq st uid ut (ts ++ [tlast])).2 =
        okRun (getRateLimitConfig ut).limit (getRateLimitConfig ut).window 0 ts ++
          [(checkRateLimitMem (checkSeq st uid ut ts).1 uid ut tlast).2] := by
    rw [checkSeq_append, checkSeq_singleton]
    simp only [List.length_nil] at hres
    rw [hres]
  constructor
  · intro i hi
    have hil : i < (okRun (getRateLimitConfig ut).limit
        (getRateLimitConfig ut).window 0 ts).length := by
      rw [okRun_length, hlen]; exact hi
    obtain ⟨a, ha, hall, -, hrem⟩ :=
      okRun_getElem (getRateLimitConfig ut).limit (getRateLimitConfig ut).window
        0 ts i (by rw [hlen]; exact hi)
    refine ⟨a, ?_, hall, ?_⟩
    · rw [hsplit, List.getElem?_append_left hil]; exact ha
    · rw [hrem]; push_cast; ring
  · refine ⟨⟨(getRateLimitConfig ut).limit, (getRateLimitConfig ut).window,
      (recentOf (checkSeq st uid ut ts).1 uid ut tlast).length,
      listMin (recentOf (checkSeq st uid ut ts).1 uid ut tlast) +
        ((getRateLimitConfig ut).window : ℚ),
      pyInt (listMin (recentOf (checkSeq st uid ut ts).1 uid ut tlast) +
        ((getRateLimitConfig ut).window : ℚ) - tlast)⟩, ?_, ?_⟩
    · rw [hsplit, hstep]
      rw [List.getElem?_append_right (by simp [okRun_length, hlen])]
      simp [okRun_length, hlen]
    · rw [hfil, hlen]

/-! ### More helper lemmas -/

theorem recentOf_mem_gt (st : Store) (uid ut : String) (now : ℚ) :
    ∀ t ∈ recentOf st uid ut now,
      now - ((getRateLimitConfig ut).window : ℚ) < t := by
  rw [recentOf_eq_filter]
  intro t ht
  simpa using (List.mem_filter.mp ht).2

theorem checkRateLimitMem_other (st : Store) (uid ut : String) (now : ℚ)
    (k : String) (hk : k ≠ windowKey uid) :
    (checkRateLimitMem st uid ut now).1 k = st k := by
  by_cases h : (getRateLimitConfig ut).limit ≤ (recentOf st uid ut now).length
  · rw [checkRateLimitMem_reject st uid ut now h]
    exact prunedStoreOf_other st uid ut now k hk
  · rw [checkRateLimitMem_allow st uid ut now (by omega)]
    simp only [addRequestToMemory, if_neg hk]
    exact prunedStoreOf_other st uid ut now k hk

theorem filter_window_replicate (n : ℕ) (x c : ℚ) (h : c < x) :
    (List.replicate n x).filter (fun t => decide (c < t)) = List.replicate n x := by
  refine List.filter_eq_self.mpr (fun a ha => ?_)
  rw [List.eq_of_mem_replicate ha]
  simpa using h

theorem listMin_replicate (n : ℕ) (x : ℚ) :
    listMin (List.replicate (n + 1) x) = x := by
  have key : ∀ m : ℕ, (List.replicate m x).foldl min x = x := by
    intro m
    induction m with
    | zero => rfl
    | succ m ih => simp [List.replicate_succ, List.foldl_cons, min_self, ih]
  simp [listMin, List.replicate_succ, key n]

theorem pyInt_nonneg_eq_floor (q : ℚ) (h : 0 ≤ q) : pyInt q = ⌊q⌋ := by
  simp [pyInt, h]

theorem recentOf_empty (uid ut : String) (now : ℚ) :
    recentOf (fun _ => []) uid ut now = [] := rfl

/-- A store whose only populated key is `"rate_limit:u1"`, holding 20
integral timestamps `0` (a saturated default-tier window). -/
def hotStore : Store :=
  fun k => if k = "rate_limit:u1" then List.replicate 20 (0 : ℚ) else []

theorem recentOf_hotStore (ut : String) (now : ℚ)
    (h : now - ((getRateLimitConfig ut).window : ℚ) < 0) :
    recentOf hotStore "u1" ut now = List.replicate 20 (0 : ℚ) := by
  rw [recentOf_eq_filter]
  have hk : hotStore (windowKey "u1") = List.replicate 20 (0 : ℚ) := rfl
  rw [hk]
  exact filter_window_replicate 20 0 _ h

theorem hotStore_reject_eval :
    checkRateLimitMem hotStore "u1" "global_unauthenticated_user" 30 =
      (prunedStoreOf hotStore "u1" "global_unauthenticated_user" 30,
       Except.error ⟨20, 60, 20, 60, 30⟩) := by
  have hr : recentOf hotStore "u1" "global_unauthenticated_user" 30 =
      List.replicate 20 (0 : ℚ) := by
    refine recentOf_hotStore _ 30 ?_
    rw [getRateLimitConfig_default]
    norm_num
  rw [checkRateLimitMem_reject hotStore "u1" "global_unauthenticated_user" 30
    (by rw [hr]; simp [getRateLimitConfig_default])]
  rw [hr, getRateLimitConfig_default]
  have hmin : listMin (List.replicate 20 (0 : ℚ)) = 0 := listMin_replicate 19 0
  rw [hmin]
  norm_num
  rw [pyInt_nonneg_eq_floor 30 (by norm_num)]
  norm_num [Int.floor_intCast]

/-- A store whose only populated key is `"rate_limit:u1"`, holding 20
fractional timestamps `1/2` (exercises the float-vs-int rounding in the
`retry_after` field). -/
def halfStore : Store :=
  fun k => if k = "rate_limit:u1" then List.replicate 20 (1/2 : ℚ) else []

theorem halfStore_reject_eval :
    checkRateLimitMem halfStore "u1" "global_unauthenticated_user" 1 =
      (prunedStoreOf halfStore "u1" "global_unauthenticated_user" 1,
       Except.error ⟨20, 60, 20, 121/2, 59⟩) := by
  have hr : recentOf halfStore "u1" "global_unauthenticated_user" 1 =
      List.replicate 20 (1/2 : ℚ) := by
    rw [recentOf_eq_filter]
    have hk : halfStore (windowKey "u1") = List.replicate 20 (1/2 : ℚ) := rfl
    rw [hk]
    refine filter_window_replicate 20 (1/2) _ ?_
    rw [getRateLimitConfig_default]
    norm_num
  rw [checkRateLimitMem_reject halfStore "u1" "global_unauthenticated_user" 1
    (by rw [hr]; simp [getRateLimitConfig_default])]
  rw [hr, getRateLimitConfig_default]
  have hmin : listMin (List.replicate 20 (1/2 : ℚ)) = 1/2 := listMin_replicate 19 _
  rw [hmin]
  have h1 : (1/2 : ℚ) + (60 : ℕ) = 121/2 := by norm_num
  rw [h1]
  have h2 : (121/2 : ℚ) - 1 = 119/2 := by norm_num
  rw [h2, pyInt_nonneg_eq_floor (119/2) (by norm_num)]
  have h3 : ⌊(119/2 : ℚ)⌋ = 59 := by
    rw [Int.floor_eq_iff]
    norm_num
  rw [h3]
  simp

theorem checkRateLimitRedis_reject (f : Faults) (rs : RedisState)
    (uid ut : String) (now : ℚ)
    (h : (getRateLimitConfig ut).limit ≤
      ((getRequestsFromRedis f rs (windowKey uid)
        ((getRateLimitConfig ut).window : ℚ) now).2).length) :
    checkRateLimitRedis f rs uid ut now =
      ((getRequestsFromRedis f rs (windowKey uid)
          ((getRateLimitConfig ut).window : ℚ) now).1,
       Except.error
         ⟨(getRateLimitConfig ut).limit, (getRateLimitConfig ut).window,
          ((getRequestsFromRedis f rs (windowKey uid)
            ((getRateLimitConfig ut).window : ℚ) now).2).length,
          listMin ((getRequestsFromRedis f rs (windowKey uid)
            ((getRateLimitConfig ut).window : ℚ) now).2) +
            ((getRateLimitConfig ut).window : ℚ),
          pyInt (listMin ((getRequestsFromRedis f rs (windowKey uid)
            ((getRateLimitConfig ut).window : ℚ) now).2) +
            ((getRateLimitConfig ut).window : ℚ) - now)⟩) := by
  simp only [checkRateLimitRedis] at *
  rw [if_pos h]

theorem checkRateLimitRedis_allow (f : Faults) (rs : RedisState)
    (uid ut : String) (now : ℚ)
    (h : ((getRequestsFromRedis f rs (windowKey uid)
        ((getRateLimitConfig ut).window : ℚ) now).2).length <
      (getRateLimitConfig ut).limit) :
    checkRateLimitRedis f rs uid ut now =
      (addRequestToRedis f
        (getRequestsFromRedis f rs (windowKey uid)
          ((getRateLimitConfig ut).window : ℚ) now).1
        (windowKey uid) now ((getRateLimitConfig ut).window : ℚ),
       Except.ok
         ⟨true, (getRateLimitConfig ut).limit,
          ((getRateLimitConfig ut).limit : ℤ) -
            ((getRequestsFromRedis f rs (windowKey uid)
              ((getRateLimitConfig ut).window : ℚ) now).2).length - 1,
          now + ((getRateLimitConfig ut).window : ℚ)⟩) := by
  simp only [checkRateLimitRedis] at *
  rw [if_neg (by omega)]

theorem getRequestsFromRedis_state_sublist (f : Faults) (rs : RedisState)
    (key : String) (w now : ℚ) (k : String) :
    List.Sublist ((getRequestsFromRedis f rs key w now).1.data k) (rs.data k) := by
  unfold getRequestsFromRedis
  by_cases hz : f.zremFails
  · simp [hz]
  · by_cases hr : f.zrangeFails <;>
      · simp only [hz, hr, Bool.false_eq_true, if_false, if_true]
        unfold zremrangebyscore
        dsimp only
        by_cases hk : k = key
        · rw [if_pos hk]; exact List.filter_sublist _
        · rw [if_neg hk]

theorem recentOf_pruned (st : Store) (uid ut : String) (now : ℚ) :
    recentOf (prunedStoreOf st uid ut now) uid ut now =
      recentOf st uid ut now := by
  conv_lhs => rw [recentOf_eq_filter, prunedStoreOf_key, recentOf_eq_filter]
  rw [recentOf_eq_filter, List.filter_filter]
  simp

theorem prunedStoreOf_idem (st : Store) (uid ut : String) (now : ℚ) :
    prunedStoreOf (prunedStoreOf st uid ut now) uid ut now =
      prunedStoreOf st uid ut now := by
  funext k
  by_cases hk : k = windowKey uid
  · subst hk
    rw [prunedStoreOf_key, prunedStoreOf_key, recentOf_pruned]
  · rw [prunedStoreOf_other _ _ _ _ k hk]

/-! ### Claim theorems -/

/-- C3: a call that rejects records nothing: the store after the call is
exactly the store as pruned by the read (at the request's key it holds
precisely the pruned in-window list observed during the call, and every
other key is untouched). -/
theorem c3_rejection_records_nothing (st : Store) (uid ut : String) (now : ℚ)
    (r : Rejection)
    (hrej : (checkRateLimitMem st uid ut now).2 = Except.error r) :
    (checkRateLimitMem st uid ut now).1 = prunedStoreOf st uid ut now ∧
    (checkRateLimitMem st uid ut now).1 (windowKey uid) = recentOf st uid ut now ∧
    ∀ k, k ≠ windowKey uid → (checkRateLimitMem st uid ut now).1 k = st k := by
  by_cases h : (getRateLimitConfig ut).limit ≤ (recentOf st uid ut now).length
  · rw [checkRateLimitMem_reject st uid ut now h]
    exact ⟨rfl, prunedStoreOf_key st uid ut now,
      fun k hk => prunedStoreOf_other st uid ut now k hk⟩
  · rw [checkRateLimitMem_allow st uid ut now (by omega)] at hrej
    simp at hrej

/-- Witness for C3: a saturated window (20 records at time 0, checked at
time 30 under the 20/60 default policy) rejects and leaves the store
equal to its pruned read. -/
theorem c3_witness :
    ((checkRateLimitMem hotStore "u1" "global_unauthenticated_user" 30).2 =
      Except.error ⟨20, 60, 20, 60, 30⟩) ∧
    ((checkRateLimitMem hotStore "u1" "global_unauthenticated_user" 30).1 =
      prunedStoreOf hotStore "u1" "global_unauthenticated_user" 30 ∧
     (checkRateLimitMem hotStore "u1" "global_unauthenticated_user" 30).1
        (windowKey "u1") =
       recentOf hotStore "u1" "global_unauthenticated_user" 30 ∧
     ∀ k, k ≠ windowKey "u1" →
       (checkRateLimitMem hotStore "u1" "global_unauthenticated_user" 30).1 k =
         hotStore k) :=
  ⟨by rw [hotStore_reject_eval],
   c3_rejection_records_nothing hotStore "u1" "global_unauthenticated_user" 30
     ⟨20, 60, 20, 60, 30⟩ (by rw [hotStore_reject_eval])⟩

/-- C4 (amended): a call that admits appends exactly one record, with
timestamp `now`, to the key's pruned record set (other keys untouched),
and returns `reset_time = now + window`; but its `remaining` field is
`limit - len(recent) - 2` — one less than the claimed
`max 0 (limit - len(recent) - 1)`, because the fallback path reads the
aliased list's length after the append — and is therefore only bounded
below by `-1`, which it attains when the observed count was
`limit - 1`. -/
theorem c4_admission_appends_once (st : Store) (uid ut : String) (now : ℚ)
    (a : Admission)
    (hok : (checkRateLimitMem st uid ut now).2 = Except.ok a) :
    (checkRateLimitMem st uid ut now).1 (windowKey uid) =
      recentOf st uid ut now ++ [now] ∧
    (∀ k, k ≠ windowKey uid → (checkRateLimitMem st uid ut now).1 k = st k) ∧
    a.remaining = ((getRateLimitConfig ut).limit : ℤ) -
      (recentOf st uid ut now).length - 2 ∧
    (-1 : ℤ) ≤ a.remaining ∧
    a.reset_time = now + ((getRateLimitConfig ut).window : ℚ) := by
  by_cases h : (getRateLimitConfig ut).limit ≤ (recentOf st uid ut now).length
  · rw [checkRateLimitMem_reject st uid ut now h] at hok
    simp at hok
  · have hlt : (recentOf st uid ut now).length < (getRateLimitConfig ut).limit := by
      omega
    have hge : (-1 : ℤ) ≤ ((getRateLimitConfig ut).limit : ℤ) -
        (recentOf st uid ut now).length - 2 := by
      omega
    rw [checkRateLimitMem_allow st uid ut now hlt] at hok ⊢
    dsimp only at hok
    obtain rfl : a = ⟨true, (getRateLimitConfig ut).limit,
        ((getRateLimitConfig ut).limit : ℤ) - (recentOf st uid ut now).length - 2,
        now + ((getRateLimitConfig ut).window : ℚ)⟩ := by
      simpa [eq_comm] using hok
    refine ⟨?_, ?_, rfl, hge, rfl⟩
    · simp [addRequestToMemory, prunedStoreOf_key]
    · intro k hk
      simp only [addRequestToMemory, if_neg hk]
      exact prunedStoreOf_other st uid ut now k hk

theorem empty_admit_eval (uid : String) :
    checkRateLimitMem (fun _ => []) uid "global_unauthenticated_user" 0 =
      (addRequestToMemory
        (prunedStoreOf (fun _ => []) uid "global_unauthenticated_user" 0)
        (windowKey uid) 0,
       Except.ok ⟨true, 20, 18, 60⟩) := by
  rw [checkRateLimitMem_allow (fun _ => []) uid "global_unauthenticated_user" 0
    (by rw [recentOf_empty]; simp [getRateLimitConfig_default])]
  rw [recentOf_empty, getRateLimitConfig_default]
  norm_num

/-- Witness for C4 (amended): the first call on a fresh key under the
20/60 policy admits, appends the single timestamp, and returns
`remaining = 18` (the post-append length read), `reset_time = 60`. -/
theorem c4_witness :
    ((checkRateLimitMem (fun _ => []) "u1" "global_unauthenticated_user" 0).2 =
      Except.ok ⟨true, 20, 18, 60⟩) ∧
    ((checkRateLimitMem (fun _ => []) "u1" "global_unauthenticated_user" 0).1
        (windowKey "u1") =
      recentOf (fun _ => []) "u1" "global_unauthenticated_user" 0 ++ [0] ∧
     (∀ k, k ≠ windowKey "u1" →
       (checkRateLimitMem (fun _ => []) "u1" "global_unauthenticated_user" 0).1 k =
         (fun _ => ([] : List ℚ)) k) ∧
     (⟨true, 20, 18, 60⟩ : Admission).remaining =
       ((getRateLimitConfig "global_unauthenticated_user").limit : ℤ) -
         (recentOf (fun _ => []) "u1" "global_unauthenticated_user" 0).length - 2 ∧
     (-1 : ℤ) ≤ (⟨true, 20, 18, 60⟩ : Admission).remaining ∧
     (⟨true, 20, 18, 60⟩ : Admission).reset_time =
       0 + ((getRateLimitConfig "global_unauthenticated_user").window : ℚ)) :=
  ⟨by rw [empty_admit_eval "u1"],
   c4_admission_appends_once (fun _ => []) "u1" "global_unauthenticated_user" 0
     ⟨true, 20, 18, 60⟩ (by rw [empty_admit_eval "u1"])⟩

/-- Counterexample for C4 as stated: with 19 in-window records the
admitting call returns `remaining = -1` — negative, and different from
`max 0 (limit - len(recent) - 1) = 0` — because the fallback path reads
`len(recent_requests)` after the append to the aliased list. -/
theorem c4_counterexample :
    ((checkRateLimitMem
        (fun k => if k = "rate_limit:u1" then List.replicate 19 (0 : ℚ) else [])
        "u1" "global_unauthenticated_user" 30).2 =
      Except.ok ⟨true, 20, -1, 90⟩) ∧
    ¬ (0 ≤ (⟨true, 20, -1, 90⟩ : Admission).remaining) := by
  have hr : recentOf
      (fun k => if k = "rate_limit:u1" then List.replicate 19 (0 : ℚ) else [])
      "u1" "global_unauthenticated_user" 30 = List.replicate 19 (0 : ℚ) := by
    rw [recentOf_eq_filter]
    have hk : (if windowKey "u1" = "rate_limit:u1" then List.replicate 19 (0 : ℚ)
        else []) = List.replicate 19 (0 : ℚ) := rfl
    rw [hk]
    refine filter_window_replicate 19 0 _ ?_
    rw [getRateLimitConfig_default]
    norm_num
  refine ⟨?_, by norm_num⟩
  rw [checkRateLimitMem_allow _ "u1" "global_unauthenticated_user" 30
    (by rw [hr]; simp [getRateLimitConfig_default])]
  rw [hr, getRateLimitConfig_default]
  norm_num

/-- C5 (amended): on every rejection the `retry_after` field is the
integer truncation `⌊reset_time - now⌋` of the exact rational wait (not
that rational itself), and it is automatically nonnegative because every
surviving record is strictly inside the window, so it also equals
`max 0 ⌊reset_time - now⌋`. -/
theorem c5_retry_after_is_floor (st : Store) (uid ut : String) (now : ℚ)
    (r : Rejection)
    (hrej : (checkRateLimitMem st uid ut now).2 = Except.error r) :
    r.retry_after = ⌊r.reset_time - now⌋ ∧
    0 ≤ r.retry_after ∧
    r.retry_after = max 0 ⌊r.reset_time - now⌋ := by
  by_cases h : (getRateLimitConfig ut).limit ≤ (recentOf st uid ut now).length
  · rw [checkRateLimitMem_reject st uid ut now h] at hrej
    dsimp only at hrej
    obtain rfl : r = ⟨(getRateLimitConfig ut).limit, (getRateLimitConfig ut).window,
        (recentOf st uid ut now).length,
        listMin (recentOf st uid ut now) + ((getRateLimitConfig ut).window : ℚ),
        pyInt (listMin (recentOf st uid ut now) +
          ((getRateLimitConfig ut).window : ℚ) - now)⟩ := by
      simpa [eq_comm] using hrej
    have hne : recentOf st uid ut now ≠ [] := by
      have := getRateLimitConfig_limit_pos ut
      intro hnil
      rw [hnil] at h
      simp at h
      omega
    have hmin : now - ((getRateLimitConfig ut).window : ℚ) <
        listMin (recentOf st uid ut now) :=
      recentOf_mem_gt st uid ut now _ (listMin_mem _ hne)
    have hpos : (0 : ℚ) ≤ listMin (recentOf st uid ut now) +
        ((getRateLimitConfig ut).window : ℚ) - now := by
      linarith
    refine ⟨pyInt_nonneg_eq_floor _ hpos, ?_, ?_⟩
    · rw [pyInt_nonneg_eq_floor _ hpos]
      exact Int.floor_nonneg.mpr hpos
    · rw [pyInt_nonneg_eq_floor _ hpos, max_eq_right (Int.floor_nonneg.mpr hpos)]
  · rw [checkRateLimitMem_allow st uid ut now (by omega)] at hrej
    simp at hrej

/-- Witness for C5 (amended): the saturated fractional-timestamp window
rejects with `reset_time = 121/2` and `retry_after = 59 = ⌊119/2⌋`. -/
theorem c5_witness :
    ((checkRateLimitMem halfStore "u1" "global_unauthenticated_user" 1).2 =
      Except.error ⟨20, 60, 20, 121/2, 59⟩) ∧
    ((⟨20, 60, 20, 121/2, 59⟩ : Rejection).retry_after =
       ⌊(⟨20, 60, 20, 121/2, 59⟩ : Rejection).reset_time - 1⌋ ∧
     0 ≤ (⟨20, 60, 20, 121/2, 59⟩ : Rejection).retry_after ∧
     (⟨20, 60, 20, 121/2, 59⟩ : Rejection).retry_after =
       max 0 ⌊(⟨20, 60, 20, 121/2, 59⟩ : Rejection).reset_time - 1⌋) :=
  ⟨by rw [halfStore_reject_eval],
   c5_retry_after_is_floor halfStore "u1" "global_unauthenticated_user" 1
     ⟨20, 60, 20, 121/2, 59⟩ (by rw [halfStore_reject_eval])⟩

/-- Counterexample for C5 as stated: at fractional timestamps the
`retry_after` field of the rejection (here `59`) differs from
`max 0 (reset_time - now)` (here `119/2`), because the code truncates
with `int(...)`. -/
theorem c5_counterexample :
    ((checkRateLimitMem halfStore "u1" "global_unauthenticated_user" 1).2 =
      Except.error ⟨20, 60, 20, 121/2, 59⟩) ∧
    ¬ (((⟨20, 60, 20, 121/2, 59⟩ : Rejection).retry_after : ℚ) =
        max 0 ((⟨20, 60, 20, 121/2, 59⟩ : Rejection).reset_time - 1)) := by
  refine ⟨by rw [halfStore_reject_eval], ?_⟩
  dsimp only
  intro hcontra
  rw [max_eq_right (by norm_num : (0:ℚ) ≤ 121/2 - 1)] at hcontra
  norm_num at hcontra

/-- C6: after a rejection issued while exactly `limit` records were in
the window, any later check for the same key at an instant strictly past
the rejection's `reset_time` is admitted, provided no admission recorded
anything for the key in between (intervening rejections and peeks only
prune, so the key's list is then a sublist of the list left by the
rejecting call). -/
theorem c6_admitted_after_reset (st : Store) (uid ut : String) (now : ℚ)
    (r : Rejection)
    (hrej : (checkRateLimitMem st uid ut now).2 = Except.error r)
    (husage : r.current_usage = (getRateLimitConfig ut).limit)
    (st2 : Store) (now2 : ℚ)
    (hsub : List.Sublist (st2 (windowKey uid))
      ((checkRateLimitMem st uid ut now).1 (windowKey uid)))
    (hnow2 : r.reset_time < now2) :
    ∃ a : Admission, (checkRateLimitMem st2 uid ut now2).2 = Except.ok a := by
  by_cases h : (getRateLimitConfig ut).limit ≤ (recentOf st uid ut now).length
  case neg =>
    rw [checkRateLimitMem_allow st uid ut now (by omega)] at hrej
    simp at hrej
  rw [checkRateLimitMem_reject st uid ut now h] at hrej hsub
  dsimp only at hrej
  obtain rfl : r = ⟨(getRateLimitConfig ut).limit, (getRateLimitConfig ut).window,
      (recentOf st uid ut now).length,
      listMin (recentOf st uid ut now) + ((getRateLimitConfig ut).window : ℚ),
      pyInt (listMin (recentOf st uid ut now) +
        ((getRateLimitConfig ut).window : ℚ) - now)⟩ := by
    simpa [eq_comm] using hrej
  dsimp only at hsub
  rw [prunedStoreOf_key] at hsub
  have hlen : (recentOf st uid ut now).length = (getRateLimitConfig ut).limit := by
    simpa using husage
  have hne : recentOf st uid ut now ≠ [] := by
    have := getRateLimitConfig_limit_pos ut
    intro hnil
    rw [hnil] at hlen
    simp at hlen
    omega
  have hminmem := listMin_mem _ hne
  have hminlt : listMin (recentOf st uid ut now) <
      now2 - ((getRateLimitConfig ut).window : ℚ) := by
    dsimp only at hnow2
    linarith
  have hdrop :
      ((recentOf st uid ut now).filter
        (fun t => decide (now2 - ((getRateLimitConfig ut).window : ℚ) < t))).length <
        (recentOf st uid ut now).length := by
    refine List.length_filter_lt_length_iff_exists.mpr
      ⟨listMin (recentOf st uid ut now), hminmem, ?_⟩
    simp only [decide_eq_true_eq]
    intro hcontra
    linarith
  have hlen2 : (recentOf st2 uid ut now2).length <
      (getRateLimitConfig ut).limit := by
    have hfsub := List.Sublist.length_le (List.Sublist.filter
      (fun t => decide (now2 - ((getRateLimitConfig ut).window : ℚ) < t)) hsub)
    rw [recentOf_eq_filter]
    omega
  exact ⟨_, by rw [checkRateLimitMem_allow st2 uid ut now2 hlen2]⟩

/-- Witness for C6: after the saturated window at time 0 is rejected at
time 30 (reset time 60), the very next check at time 61 on the
post-rejection store is admitted. -/
theorem c6_witness :
    ((checkRateLimitMem hotStore "u1" "global_unauthenticated_user" 30).2 =
      Except.error ⟨20, 60, 20, 60, 30⟩) ∧
    ((⟨20, 60, 20, 60, 30⟩ : Rejection).current_usage =
      (getRateLimitConfig "global_unauthenticated_user").limit) ∧
    ((⟨20, 60, 20, 60, 30⟩ : Rejection).reset_time < (61 : ℚ)) ∧
    ∃ a : Admission,
      (checkRateLimitMem
        (checkRateLimitMem hotStore "u1" "global_unauthenticated_user" 30).1
        "u1" "global_unauthenticated_user" 61).2 = Except.ok a :=
  ⟨by rw [hotStore_reject_eval], rfl, by norm_num,
   c6_admitted_after_reset hotStore "u1" "global_unauthenticated_user" 30
     ⟨20, 60, 20, 60, 30⟩ (by rw [hotStore_reject_eval]) rfl
     (checkRateLimitMem hotStore "u1" "global_unauthenticated_user" 30).1 61
     (List.Sublist.refl _) (by norm_num)⟩

theorem filter_true_replicate (n : ℕ) (x : ℚ) (p : ℚ → Bool) (h : p x = true) :
    (List.replicate n x).filter p = List.replicate n x :=
  List.filter_eq_self.mpr (fun a ha => by rw [List.eq_of_mem_replicate ha]; exact h)

/-- C7: a prune-and-fetch on the local fallback store returns a sublist
of the stored sequence (order and values preserved) that keeps every
record strictly newer than `now - window` with its exact multiplicity,
contains nothing older, is stored back verbatim under the key, and
leaves every other key untouched. -/
theorem c7_prune_exact (st : Store) (key : String) (w now : ℚ) :
    List.Sublist (getRequestsFromMemory st key w now).2 (st key) ∧
    (∀ t ∈ (getRequestsFromMemory st key w now).2, now - w < t) ∧
    (∀ t ∈ st key, now - w < t →
      (getRequestsFromMemory st key w now).2.count t = (st key).count t) ∧
    (∀ t ∈ st key, t ≤ now - w → t ∉ (getRequestsFromMemory st key w now).2) ∧
    (getRequestsFromMemory st key w now).1 key =
      (getRequestsFromMemory st key w now).2 ∧
    (∀ k, k ≠ key → (getRequestsFromMemory st key w now).1 k = st k) := by
  unfold getRequestsFromMemory
  dsimp only
  refine ⟨List.filter_sublist _, ?_, ?_, ?_, if_pos rfl, fun k hk => if_neg hk⟩
  · intro t ht
    simpa using (List.mem_filter.mp ht).2
  · intro t _ hgt
    exact List.count_filter (by simpa using hgt)
  · intro t _ hle hmem
    have := (List.mem_filter.mp hmem).2
    simp at this
    linarith

/-- Witness for C7 on a concrete three-element store: pruning at
`now = 10` with `window = 6` keeps exactly `[5, 10]`. -/
theorem c7_witness :
    (List.Sublist
      (getRequestsFromMemory (fun k => if k = "k" then [(0:ℚ), 5, 10] else [])
        "k" 6 10).2
      ((fun k => if k = "k" then [(0:ℚ), 5, 10] else []) "k") ∧
     (∀ t ∈ (getRequestsFromMemory (fun k => if k = "k" then [(0:ℚ), 5, 10] else [])
        "k" 6 10).2, (10:ℚ) - 6 < t) ∧
     (∀ t ∈ (fun k => if k = "k" then [(0:ℚ), 5, 10] else []) "k", (10:ℚ) - 6 < t →
       (getRequestsFromMemory (fun k => if k = "k" then [(0:ℚ), 5, 10] else [])
         "k" 6 10).2.count t =
       ((fun k => if k = "k" then [(0:ℚ), 5, 10] else []) "k").count t) ∧
     (∀ t ∈ (fun k => if k = "k" then [(0:ℚ), 5, 10] else []) "k", t ≤ (10:ℚ) - 6 →
       t ∉ (getRequestsFromMemory (fun k => if k = "k" then [(0:ℚ), 5, 10] else [])
         "k" 6 10).2) ∧
     (getRequestsFromMemory (fun k => if k = "k" then [(0:ℚ), 5, 10] else [])
       "k" 6 10).1 "k" =
       (getRequestsFromMemory (fun k => if k = "k" then [(0:ℚ), 5, 10] else [])
         "k" 6 10).2 ∧
     (∀ k, k ≠ "k" →
       (getRequestsFromMemory (fun k => if k = "k" then [(0:ℚ), 5, 10] else [])
         "k" 6 10).1 k =
       (fun k => if k = "k" then [(0:ℚ), 5, 10] else []) k)) ∧
    (getRequestsFromMemory (fun k => if k = "k" then [(0:ℚ), 5, 10] else [])
      "k" 6 10).2 = [5, 10] := by
  refine ⟨c7_prune_exact (fun k => if k = "k" then [(0:ℚ), 5, 10] else []) "k" 6 10, ?_⟩
  unfold getRequestsFromMemory
  dsimp only
  rw [if_pos rfl]
  norm_num [List.filter_cons, List.filter_nil]

/-- C8: `get_rate_limit_info` is a pure peek: it never appends a record
(on either backend its state change is at most pruning, so each key's
list stays a sublist of what it was), its `remaining` is
`limit - len(recent)` with no extra `- 1`, and running it immediately
before a `check_rate_limit` for the same key at the same instant leaves
the check's outcome (result and final store) identical to running the
check alone. -/
theorem c8_peek_readonly (st : Store) (uid ut : String) (now : ℚ) :
    (∀ k, List.Sublist ((getRateLimitInfoMem st uid ut now).1 k) (st k)) ∧
    ((getRateLimitInfoMem st uid ut now).2.remaining =
      ((getRateLimitConfig ut).limit : ℤ) - (recentOf st uid ut now).length) ∧
    (checkRateLimitMem (getRateLimitInfoMem st uid ut now).1 uid ut now =
      checkRateLimitMem st uid ut now) ∧
    ∀ (f : Faults) (rs : RedisState) (k : String),
      List.Sublist ((getRateLimitInfoRedis f rs uid ut now).1.data k) (rs.data k) := by
  have hpeek : (getRateLimitInfoMem st uid ut now).1 = prunedStoreOf st uid ut now :=
    rfl
  refine ⟨?_, rfl, ?_, ?_⟩
  · intro k
    rw [hpeek]
    by_cases hk : k = windowKey uid
    · subst hk
      rw [prunedStoreOf_key, recentOf_eq_filter]
      exact List.filter_sublist _
    · rw [prunedStoreOf_other st uid ut now k hk]
  · rw [hpeek]
    by_cases h : (getRateLimitConfig ut).limit ≤ (recentOf st uid ut now).length
    · rw [checkRateLimitMem_reject _ _ _ _ (by rw [recentOf_pruned]; exact h),
        checkRateLimitMem_reject st uid ut now h, recentOf_pruned,
        prunedStoreOf_idem]
    · rw [checkRateLimitMem_allow _ _ _ _
        (by rw [recentOf_pruned]; omega),
        checkRateLimitMem_allow st uid ut now (by omega), recentOf_pruned,
        prunedStoreOf_idem]
  · intro f rs k
    exact getRequestsFromRedis_state_sublist f rs (windowKey uid)
      ((getRateLimitConfig ut).window : ℚ) now k

/-- Witness for C8: peeking the saturated store reports `remaining = 0`
(`limit - len(recent)`, not `limit - len(recent) - 1`) and does not
change the outcome of the following check. -/
theorem c8_witness :
    ((∀ k, List.Sublist
        ((getRateLimitInfoMem hotStore "u1" "global_unauthenticated_user" 30).1 k)
        (hotStore k)) ∧
     ((getRateLimitInfoMem hotStore "u1" "global_unauthenticated_user" 30).2.remaining =
       ((getRateLimitConfig "global_unauthenticated_user").limit : ℤ) -
         (recentOf hotStore "u1" "global_unauthenticated_user" 30).length) ∧
     (checkRateLimitMem
        (getRateLimitInfoMem hotStore "u1" "global_unauthenticated_user" 30).1
        "u1" "global_unauthenticated_user" 30 =
      checkRateLimitMem hotStore "u1" "global_unauthenticated_user" 30) ∧
     ∀ (f : Faults) (rs : RedisState) (k : String),
       List.Sublist
         ((getRateLimitInfoRedis f rs "u1" "global_unauthenticated_user" 30).1.data k)
         (rs.data k)) ∧
    (getRateLimitInfoMem hotStore "u1" "global_unauthenticated_user" 30).2.remaining
      = 0 := by
  refine ⟨c8_peek_readonly hotStore "u1" "global_unauthenticated_user" 30, ?_⟩
  have hb : (getRateLimitInfoMem hotStore "u1" "global_unauthenticated_user"
      30).2.remaining =
      ((getRateLimitConfig "global_unauthenticated_user").limit : ℤ) -
        (recentOf hotStore "u1" "global_unauthenticated_user" 30).length := rfl
  rw [hb, recentOf_hotStore "global_unauthenticated_user" 30
    (by rw [getRateLimitConfig_default]; norm_num)]
  simp [getRateLimitConfig_default]

/-- C9: a tier name absent from the policy table resolves to the
default `global_unauthenticated_user` policy (limit 20, window 60)
without failing, and `check_rate_limit` under that unknown tier behaves
exactly as under the default tier. -/
theorem c9_unknown_tier_defaults (t : String)
    (h1 : t ≠ "global_unauthenticated_user") (h2 : t ≠ "authenticated_user")
    (h3 : t ≠ "premium_user") :
    getRateLimitConfig t = ⟨20, 60⟩ ∧
    getRateLimitConfig t = getRateLimitConfig "global_unauthenticated_user" ∧
    ∀ (st : Store) (uid : String) (now : ℚ),
      checkRateLimitMem st uid t now =
        checkRateLimitMem st uid "global_unauthenticated_user" now := by
  have h := getRateLimitConfig_unknown t h1 h2 h3
  refine ⟨h, h.trans getRateLimitConfig_default.symm, fun st uid now => ?_⟩
  simp only [checkRateLimitMem, h, getRateLimitConfig_default]

/-- Witness for C9 at the unknown tier name `"anonymous"`. -/
theorem c9_witness :
    ("anonymous" ≠ "global_unauthenticated_user" ∧
     "anonymous" ≠ "authenticated_user" ∧ "anonymous" ≠ "premium_user") ∧
    (getRateLimitConfig "anonymous" = ⟨20, 60⟩ ∧
     getRateLimitConfig "anonymous" =
       getRateLimitConfig "global_unauthenticated_user" ∧
     ∀ (st : Store) (uid : String) (now : ℚ),
       checkRateLimitMem st uid "anonymous" now =
         checkRateLimitMem st uid "global_unauthenticated_user" now) :=
  ⟨⟨by decide, by decide, by decide⟩,
   c9_unknown_tier_defaults "anonymous" (by decide) (by decide) (by decide)⟩

/-- C10: the `/ask_rag` endpoint rate-limits the constant identity
`"global_unauthenticated_user"`: the admission step is the same function
of store and time for every request body, coincides with
`check_rate_limit` on the single shared key
`"rate_limit:global_unauthenticated_user"` under the 20-per-60-seconds
policy, and touches no other key. -/
theorem c10_shared_global_budget (req req2 : RAGRequest) (st : Store) (now : ℚ) :
    askRagAdmission req st now = askRagAdmission req2 st now ∧
    askRagAdmission req st now =
      checkRateLimitMem st "global_unauthenticated_user"
        "global_unauthenticated_user" now ∧
    windowKey "global_unauthenticated_user" =
      "rate_limit:global_unauthenticated_user" ∧
    getRateLimitConfig "global_unauthenticated_user" = ⟨20, 60⟩ ∧
    ∀ k, k ≠ "rate_limit:global_unauthenticated_user" →
      (askRagAdmission req st now).1 k = st k := by
  refine ⟨rfl, rfl, rfl, rfl, fun k hk => ?_⟩
  exact checkRateLimitMem_other st "global_unauthenticated_user"
    "global_unauthenticated_user" now k hk

/-- Witness for C10: two distinct request bodies on a fresh store at
time 0 produce the identical admission (`remaining = 18`), and only the
shared key is written. -/
theorem c10_witness :
    (askRagAdmission ⟨"hi", none⟩ (fun _ => []) 0 =
       askRagAdmission ⟨"hola", some "s"⟩ (fun _ => []) 0 ∧
     askRagAdmission ⟨"hi", none⟩ (fun _ => []) 0 =
       checkRateLimitMem (fun _ => []) "global_unauthenticated_user"
         "global_unauthenticated_user" 0 ∧
     windowKey "global_unauthenticated_user" =
       "rate_limit:global_unauthenticated_user" ∧
     getRateLimitConfig "global_unauthenticated_user" = ⟨20, 60⟩ ∧
     ∀ k, k ≠ "rate_limit:global_unauthenticated_user" →
       (askRagAdmission ⟨"hi", none⟩ (fun _ => []) 0).1 k =
         (fun _ => ([] : List ℚ)) k) ∧
    (askRagAdmission ⟨"hi", none⟩ (fun _ => []) 0).2 =
      Except.ok ⟨true, 20, 18, 60⟩ := by
  refine ⟨c10_shared_global_budget ⟨"hi", none⟩ ⟨"hola", some "s"⟩ (fun _ => []) 0, ?_⟩
  have : askRagAdmission ⟨"hi", none⟩ (fun _ => []) 0 =
      checkRateLimitMem (fun _ => []) "global_unauthenticated_user"
        "global_unauthenticated_user" 0 := rfl
  rw [this, empty_admit_eval "global_unauthenticated_user"]

/-- Redis state whose only populated key is `"rate_limit:u1"`, holding
20 timestamps `0` and no TTL. -/
def hotRedis : RedisState :=
  ⟨fun k => if k = "rate_limit:u1" then List.replicate 20 (0 : ℚ) else [],
   fun _ => none⟩

theorem hotRedis_fetch_eval :
    getRequestsFromRedis ⟨false, false, false, false⟩ hotRedis (windowKey "u1")
      ((getRateLimitConfig "global_unauthenticated_user").window : ℚ) 30 =
      (zremrangebyscore hotRedis (windowKey "u1") 0
        (30 - ((getRateLimitConfig "global_unauthenticated_user").window : ℚ)),
       List.replicate 20 (0 : ℚ)) := by
  have hdata : (zremrangebyscore hotRedis (windowKey "u1") 0
      (30 - ((getRateLimitConfig "global_unauthenticated_user").window : ℚ))).data
        (windowKey "u1") = List.replicate 20 (0 : ℚ) := by
    unfold zremrangebyscore
    dsimp only
    rw [if_pos rfl]
    have hh : hotRedis.data (windowKey "u1") = List.replicate 20 (0 : ℚ) := rfl
    rw [hh]
    refine filter_true_replicate 20 0 _ ?_
    rw [getRateLimitConfig_default]
    norm_num
  have hrange : zrangebyscore (zremrangebyscore hotRedis (windowKey "u1") 0
      (30 - ((getRateLimitConfig "global_unauthenticated_user").window : ℚ)))
      (windowKey "u1")
      (30 - ((getRateLimitConfig "global_unauthenticated_user").window : ℚ)) 30 =
      List.replicate 20 (0 : ℚ) := by
    unfold zrangebyscore
    rw [hdata]
    refine filter_true_replicate 20 0 _ ?_
    rw [getRateLimitConfig_default]
    norm_num
  unfold getRequestsFromRedis
  dsimp only
  rw [if_neg Bool.false_ne_true, if_neg Bool.false_ne_true, hrange]

theorem hotRedis_reject_eval :
    checkRateLimitRedis ⟨false, false, false, false⟩ hotRedis "u1"
        "global_unauthenticated_user" 30 =
      ((getRequestsFromRedis ⟨false, false, false, false⟩ hotRedis (windowKey "u1")
          ((getRateLimitConfig "global_unauthenticated_user").window : ℚ) 30).1,
       Except.error ⟨20, 60, 20, 60, 30⟩) := by
  have hf : (getRequestsFromRedis ⟨false, false, false, false⟩ hotRedis
      (windowKey "u1")
      ((getRateLimitConfig "global_unauthenticated_user").window : ℚ) 30).2 =
      List.replicate 20 (0 : ℚ) := by
    rw [hotRedis_fetch_eval]
  rw [checkRateLimitRedis_reject ⟨false, false, false, false⟩ hotRedis "u1"
    "global_unauthenticated_user" 30
    (by rw [hf]; simp [getRateLimitConfig_default])]
  rw [hf, getRateLimitConfig_default, listMin_replicate 19 0]
  norm_num
  rw [pyInt_nonneg_eq_floor 30 (by norm_num)]
  norm_num [Int.floor_intCast]

/-- C2 (amended): Redis faults are absorbed inside the store helpers: a
fault in either backend call of the fetch step makes the fetch evaluate
to `[]`; a fault in the insert call makes the record step a no-op; a
fault in the expiration call after a successful insert leaves the
timestamp recorded anyway (the record step is then not a no-op, only the
TTL refresh is lost); and the only error `check_rate_limit` can
propagate is the rate-limit rejection, whose usage has reached the
policy limit. -/
theorem c2_faults_absorbed :
    (∀ (f : Faults) (rs : RedisState) (key : String) (w now : ℚ),
      f.zremFails = true ∨ f.zrangeFails = true →
      (getRequestsFromRedis f rs key w now).2 = []) ∧
    (∀ (f : Faults) (rs : RedisState) (key : String) (ts w : ℚ),
      f.zaddFails = true → addRequestToRedis f rs key ts w = rs) ∧
    (∀ (rs : RedisState) (key : String) (ts w : ℚ),
      (addRequestToRedis ⟨false, false, false, true⟩ rs key ts w).data =
        (zadd rs key ts).data) ∧
    (∀ (f : Faults) (rs : RedisState) (uid ut : String) (now : ℚ) (r : Rejection),
      (checkRateLimitRedis f rs uid ut now).2 = Except.error r →
      r.limit = (getRateLimitConfig ut).limit ∧ r.limit ≤ r.current_usage) := by
  refine ⟨?_, ?_, ?_, ?_⟩
  · intro f rs key w now h
    unfold getRequestsFromRedis
    by_cases hz : f.zremFails
    · simp [hz]
    · have hr : f.zrangeFails = true := by
        rcases h with h | h
        · exact absurd h hz
        · exact h
      simp [hz, hr]
  · intro f rs key ts w h
    unfold addRequestToRedis
    simp [h]
  · intro rs key ts w
    unfold addRequestToRedis
    simp
  · intro f rs uid ut now r h
    by_cases hc : (getRateLimitConfig ut).limit ≤
        ((getRequestsFromRedis f rs (windowKey uid)
          ((getRateLimitConfig ut).window : ℚ) now).2).length
    · rw [checkRateLimitRedis_reject f rs uid ut now hc] at h
      dsimp only at h
      obtain rfl : r = ⟨(getRateLimitConfig ut).limit, (getRateLimitConfig ut).window,
          ((getRequestsFromRedis f rs (windowKey uid)
            ((getRateLimitConfig ut).window : ℚ) now).2).length,
          listMin ((getRequestsFromRedis f rs (windowKey uid)
            ((getRateLimitConfig ut).window : ℚ) now).2) +
            ((getRateLimitConfig ut).window : ℚ),
          pyInt (listMin ((getRequestsFromRedis f rs (windowKey uid)
            ((getRateLimitConfig ut).window : ℚ) now).2) +
            ((getRateLimitConfig ut).window : ℚ) - now)⟩ := by
        simpa [eq_comm] using h
      exact ⟨rfl, hc⟩
    · rw [checkRateLimitRedis_allow f rs uid ut now (by omega)] at h
      simp at h

/-- Witness for C2 (amended): each fault mode exercised concretely, and
a genuine fault-free rejection propagating through the Redis path. -/
theorem c2_witness :
    ((⟨true, false, false, false⟩ : Faults).zremFails = true ∨
      (⟨true, false, false, false⟩ : Faults).zrangeFails = true) ∧
    (getRequestsFromRedis ⟨true, false, false, false⟩ hotRedis "rate_limit:u1"
      60 30).2 = [] ∧
    ((⟨false, false, true, false⟩ : Faults).zaddFails = true) ∧
    addRequestToRedis ⟨false, false, true, false⟩ hotRedis "rate_limit:u1" 30 60 =
      hotRedis ∧
    (addRequestToRedis ⟨false, false, false, true⟩ hotRedis
        "rate_limit:u1" 30 60).data =
      (zadd hotRedis "rate_limit:u1" 30).data ∧
    ((checkRateLimitRedis ⟨false, false, false, false⟩ hotRedis "u1"
        "global_unauthenticated_user" 30).2 = Except.error ⟨20, 60, 20, 60, 30⟩) ∧
    ((⟨20, 60, 20, 60, 30⟩ : Rejection).limit =
       (getRateLimitConfig "global_unauthenticated_user").limit ∧
     (⟨20, 60, 20, 60, 30⟩ : Rejection).limit ≤
       (⟨20, 60, 20, 60, 30⟩ : Rejection).current_usage) := by
  have hrej : (checkRateLimitRedis ⟨false, false, false, false⟩ hotRedis "u1"
      "global_unauthenticated_user" 30).2 = Except.error ⟨20, 60, 20, 60, 30⟩ := by
    rw [hotRedis_reject_eval]
  exact ⟨Or.inl rfl,
    c2_faults_absorbed.1 ⟨true, false, false, false⟩ hotRedis "rate_limit:u1" 60 30
      (Or.inl rfl),
    rfl,
    c2_faults_absorbed.2.1 ⟨false, false, true, false⟩ hotRedis "rate_limit:u1"
      30 60 rfl,
    c2_faults_absorbed.2.2.1 hotRedis "rate_limit:u1" 30 60,
    hrej,
    c2_faults_absorbed.2.2.2 ⟨false, false, false, false⟩ hotRedis "u1"
      "global_unauthenticated_user" 30 ⟨20, 60, 20, 60, 30⟩ hrej⟩

/-- Counterexample for C2 as stated: when the `expire` call raises after
a successful `zadd`, the record step is not a no-op — the timestamp `5`
is recorded on the previously empty key anyway. -/
theorem c2_counterexample :
    (⟨false, false, false, true⟩ : Faults).expireFails = true ∧
    (addRequestToRedis ⟨false, false, false, true⟩ ⟨fun _ => [], fun _ => none⟩
        "rate_limit:u1" 5 60).data "rate_limit:u1" ≠
      (⟨fun _ => [], fun _ => none⟩ : RedisState).data "rate_limit:u1" := by
  refine ⟨rfl, ?_⟩
  unfold addRequestToRedis zadd
  simp

/-- Witness for C1 (amended): the concrete 20/60 scenario — 21 calls at
time 0 on a fresh key — admits the first 20 with `remaining` from 18
down to -1 and rejects the 21st with `current_usage = 20`. -/
theorem c1_witness :
    ((fun _ => ([] : List ℚ)) (windowKey "u1") = []) ∧
    ((List.replicate 20 (0 : ℚ)).length =
      (getRateLimitConfig "global_unauthenticated_user").limit) ∧
    (∀ t ∈ List.replicate 20 (0 : ℚ) ++ [(0 : ℚ)],
      ∀ s ∈ List.replicate 20 (0 : ℚ) ++ [(0 : ℚ)],
        t - ((getRateLimitConfig "global_unauthenticated_user").window : ℚ) < s) ∧
    ((∀ i, i < (getRateLimitConfig "global_unauthenticated_user").limit →
      ∃ a : Admission,
        ((checkSeq (fun _ => []) "u1" "global_unauthenticated_user"
          (List.replicate 20 (0 : ℚ) ++ [(0 : ℚ)])).2)[i]? =
            some (Except.ok a) ∧
        a.allowed = true ∧
        a.remaining =
          ((getRateLimitConfig "global_unauthenticated_user").limit : ℤ) - 2 - i) ∧
     ∃ r : Rejection,
       ((checkSeq (fun _ => []) "u1" "global_unauthenticated_user"
         (List.replicate 20 (0 : ℚ) ++ [(0 : ℚ)])).2)[
           (getRateLimitConfig "global_unauthenticated_user").limit]? =
         some (Except.error r) ∧
       r.current_usage = (getRateLimitConfig "global_unauthenticated_user").limit) := by
  have hwin : ∀ t ∈ List.replicate 20 (0 : ℚ) ++ [(0 : ℚ)],
      ∀ s ∈ List.replicate 20 (0 : ℚ) ++ [(0 : ℚ)],
        t - ((getRateLimitConfig "global_unauthenticated_user").window : ℚ) < s := by
    intro t ht s hs
    have ht0 : t = 0 := by
      rcases List.mem_append.mp ht with h | h
      · exact List.eq_of_mem_replicate h
      · simpa using h
    have hs0 : s = 0 := by
      rcases List.mem_append.mp hs with h | h
      · exact List.eq_of_mem_replicate h
      · simpa using h
    subst ht0
    subst hs0
    rw [getRateLimitConfig_default]
    norm_num
  exact ⟨rfl, rfl, hwin,
    c1_full_window_run "u1" "global_unauthenticated_user" (fun _ => [])
      (List.replicate 20 0) 0 rfl rfl hwin⟩

/-- Counterexample for C1 as stated: in the concrete 20/60 scenario the
first admitted call of the sequence reports `remaining = 18`, not
`limit - 1 = 19`, because the fallback path reads the aliased list's
length after the append. -/
theorem c1_counterexample :
    ((checkSeq (fun _ => []) "u1" "global_unauthenticated_user"
        (List.replicate 20 (0 : ℚ) ++ [(0 : ℚ)])).2)[0]? =
      some (Except.ok ⟨true, 20, 18, 60⟩) ∧
    (⟨true, 20, 18, 60⟩ : Admission).remaining ≠
      ((getRateLimitConfig "global_unauthenticated_user").limit : ℤ) - 1 -
        ((0 : ℕ) : ℤ) := by
  constructor
  · have hsplit : List.replicate 20 (0 : ℚ) ++ [(0 : ℚ)] =
        0 :: (List.replicate 19 (0 : ℚ) ++ [(0 : ℚ)]) := rfl
    rw [hsplit]
    simp only [checkSeq]
    rw [empty_admit_eval "u1"]
    simp
  · decide
